import Mathlib

/-!
Shallow embedding of the node progression engine of the valence2 backend
(src/backend/routes/graph.py, src/backend/routes/chat.py, src/backend/database.py).

The relational store (table user_nodes, with UNIQUE(user_id, node_id)) is
modelled as a list of rows in table order; each SQL UPDATE and SELECT of the
handlers is modelled row by row, in statement order, exactly as the handlers
issue them.  The columns id, created_at and updated_at (a SERIAL surrogate key
and wall-clock timestamps refreshed on mutation) are omitted: no claim is about
them.  External collaborators (the OpenAI client, json.loads, the filesystem
read of apchem.json) are modelled as explicit arguments describing their
outcome; everything the handlers themselves compute is embedded.
-/

namespace Valence

/-- One chat message, as sent in requests and stored in chat_history. -/
structure Msg where
  role : String
  content : String
  deriving DecidableEq

/-- A row of the user_nodes table (database.py, init_db). -/
structure UserNode where
  user_id : String
  node_id : String
  neighbors : List String
  is_completed : Bool
  curiosity_score : Int
  is_unlocked : Bool
  chat_history : List Msg
  deriving DecidableEq

/-- A FastAPI HTTPException: status code and detail payload. -/
structure HTTPException where
  status_code : Nat
  detail : String
  deriving DecidableEq

/-- Models str(e) for an HTTPException caught by a catch-all handler.  The
exact rendering of the interpreter is irrelevant to every claim; only the
resulting status code matters. -/
def pyStr (status : Nat) (detail : String) : String :=
  toString status ++ ": " ++ detail

/-- WHERE user_id = u AND node_id = x, the composite row key. -/
def keyb (u x : String) (r : UserNode) : Bool :=
  r.user_id == u && r.node_id == x

/-- UPDATE user_nodes SET ... WHERE p: applies f to every row satisfying p. -/
def sqlUpdate (st : List UserNode) (p : UserNode → Bool) (f : UserNode → UserNode) :
    List UserNode :=
  st.map fun r => if p r then f r else r

/-- SELECT ... FROM user_nodes WHERE p: the rows satisfying p, in table order. -/
def sqlSelect (st : List UserNode) (p : UserNode → Bool) : List UserNode :=
  st.filter p

/-- The static graph read from public/data/apchem.json: node ids and an edge
list (source, target).  The file read is abstracted to an explicit argument of
initialize_graph. -/
structure GraphData where
  nodes : List String
  edges : List (String × String)
  deriving DecidableEq

/-- One step of the edge loop of initialize_graph (graph.py lines 48-55), seen
from the map entry of a fixed node x belonging to the node set: append the
target when the source is x, then append the source when the target is x. -/
def nbStep (x : String) (acc : List String) (e : String × String) : List String :=
  let acc1 := if e.1 == x then acc ++ [e.2] else acc
  if e.2 == x then acc1 ++ [e.1] else acc1

/-- neighbors_map[x] after the edge loop of initialize_graph, for x in the
node set. -/
def neighborsOf (g : GraphData) (x : String) : List String :=
  g.edges.foldl (nbStep x) []

/-- The seed nodes unlocked at initialization (graph.py line 67) and at reset
(graph.py line 199). -/
def seedNodes : List String := ["moles", "defining_matter"]

/-- The row INSERTed for node n by initialize_graph (graph.py lines 57-74);
chat_history takes the column default (empty). -/
def mkRow (u : String) (g : GraphData) (n : String) : UserNode :=
  { user_id := u
    node_id := n
    neighbors := neighborsOf g n
    is_completed := false
    curiosity_score := 0
    is_unlocked := seedNodes.contains n
    chat_history := [] }

/-- The response body of initialize_graph: a message and a node count. -/
structure InitResponse where
  message : String
  nodes_count : Nat
  deriving DecidableEq

/-- The INSERT loop of initialize_graph (graph.py lines 63-74).  Each
execute_query commits on its own, so rows inserted before a failure persist.
The UNIQUE (user_id, node_id) constraint of user_nodes (database.py) makes the
INSERT of an already present key raise, which the except branch of the handler
turns into a 500. -/
def insertLoop (u : String) (g : GraphData) :
    List UserNode → Nat → List String → List UserNode × Except HTTPException Nat
  | st, inserted, [] => (st, .ok inserted)
  | st, inserted, n :: rest =>
    if (sqlSelect st (keyb u n)).isEmpty then
      insertLoop u g (st ++ [mkRow u g n]) (inserted + 1) rest
    else
      (st, .error ⟨500, "duplicate key value violates unique constraint"⟩)

/-- POST /initialize-graph (graph.py lines 25-85): no-op returning the existing
count when the user already has rows, otherwise one INSERT per topology node. -/
def initialize_graph (st : List UserNode) (u : String) (g : GraphData) :
    List UserNode × Except HTTPException InitResponse :=
  let count := (sqlSelect st (fun r => r.user_id == u)).length
  if 0 < count then
    (st, .ok ⟨"Graph already initialized", count⟩)
  else
    match insertLoop u g st 0 g.nodes with
    | (st1, .ok n) => (st1, .ok ⟨"Graph initialized successfully", n⟩)
    | (st1, .error e) => (st1, .error e)

/-- The per-neighbor body of the propagation loop of complete_node (graph.py
lines 132-160): fetch the neighbor's own neighbor set M, count the completed
rows among M, and unlock the neighbor when the count is positive. -/
def unlockStep (u : String) (st : List UserNode) (neighbor_id : String) :
    List UserNode :=
  match (sqlSelect st (keyb u neighbor_id)).map (·.neighbors) with
  | [] => st
  | M :: _ =>
    let completed := (sqlSelect st fun r =>
      r.user_id == u && M.contains r.node_id && r.is_completed).length
    if 0 < completed then
      sqlUpdate st (keyb u neighbor_id) (fun r => { r with is_unlocked := true })
    else
      st

/-- PATCH /user-nodes/node_id/complete (graph.py lines 113-166).  The UPDATE
sets only is_completed on the node, RETURNING its neighbors; the loop then
unlocks each neighbor whose own neighbor set contains a completed node.  The
404 raised when the UPDATE matches no row is intercepted by the catch-all
except of the handler, which re-raises it as a 500. -/
def complete_node (st : List UserNode) (u node_id : String) :
    List UserNode × Except HTTPException (List String) :=
  let st1 := sqlUpdate st (keyb u node_id) (fun r => { r with is_completed := true })
  match (sqlSelect st1 (keyb u node_id)).map (·.neighbors) with
  | [] => (st1, .error ⟨500, pyStr 404 "Node not found"⟩)
  | neighbors :: _ => (neighbors.foldl (unlockStep u) st1, .ok neighbors)

/-- PATCH /user-nodes/node_id/curiosity (graph.py lines 168-186): adds
score_delta unconditionally and returns the new score, 404 when no row
matches (this handler has no catch-all, so the 404 surfaces). -/
def update_curiosity_score (st : List UserNode) (u node_id : String) (score_delta : Int) :
    List UserNode × Except HTTPException Int :=
  let st1 := sqlUpdate st (keyb u node_id)
    (fun r => { r with curiosity_score := r.curiosity_score + score_delta })
  match (sqlSelect st1 (keyb u node_id)).map (·.curiosity_score) with
  | [] => (st1, .error ⟨404, "Node not found"⟩)
  | s :: _ => (st1, .ok s)

/-- DELETE /reset-graph (graph.py lines 188-212): one UPDATE over every row of
the user. -/
def reset_graph (st : List UserNode) (u : String) :
    List UserNode × Except HTTPException String :=
  (sqlUpdate st (fun r => r.user_id == u)
    (fun r => { r with
        is_completed := false
        curiosity_score := 0
        is_unlocked := seedNodes.contains r.node_id
        chat_history := [] }),
   .ok "Graph reset successfully")

/-- A JSON value, as produced by json.loads on the judge oracle output. -/
inductive Json where
  | null
  | bool (b : Bool)
  | num (n : Int)
  | str (s : String)
  | arr (elems : List Json)
  | obj (entries : List (String × Json))

/-- Python truthiness of a parsed JSON value. -/
def jsonTruthy : Json → Bool
  | .null => false
  | .bool b => b
  | .num n => !(n == 0)
  | .str s => !(s == "")
  | .arr elems => !elems.isEmpty
  | .obj entries => !entries.isEmpty

/-- dict.get(k, dflt) on the entries of a parsed JSON object. -/
def dictGet (entries : List (String × Json)) (k : String) (dflt : Json) : Json :=
  match entries.find? (fun kv => kv.1 == k) with
  | some kv => kv.2
  | none => dflt

/-- value.get(k, dflt) in Python: an AttributeError when the value is not a
dict. -/
def jsonGet (j : Json) (k : String) (dflt : Json) : Except String Json :=
  match j with
  | .obj entries => .ok (dictGet entries k dflt)
  | _ => .error "AttributeError: get"

/-- value.get(k) in Python with default None, rendered as JSON null in the
response; in chat it is only reached on a dict, after a first get succeeded. -/
def jsonGet0 (j : Json) (k : String) : Json :=
  match j with
  | .obj entries => dictGet entries k .null
  | _ => .null

/-- The outcome of the judge oracle call inside evaluate_curiosity (chat.py
lines 42-91).  The OpenAI call and json.loads are external collaborators:
apiFailure is any exception raised by the call (error or timeout), and
output p is a returned text whose fence-stripped json.loads outcome is p
(none when parsing raises). -/
inductive JudgeOutcome where
  | apiFailure
  | output (parsed : Option Json)

/-- The degraded judgment returned by the except branch of evaluate_curiosity
(chat.py line 91). -/
def fallbackJudgment : Json :=
  .obj [("is_curious", .bool false), ("reason", .str "Evaluation failed")]

/-- evaluate_curiosity (chat.py lines 42-91): the parsed oracle output, or the
degraded judgment when the call or the parse raises. -/
def evaluate_curiosity : JudgeOutcome → Json
  | .apiFailure => fallbackJudgment
  | .output none => fallbackJudgment
  | .output (some j) => j

/-- The reason field of a judgment, when it is an object with a string
reason. -/
def reasonOf (j : Json) : Option String :=
  match j with
  | .obj entries =>
    match dictGet entries "reason" .null with
    | .str s => some s
    | _ => none
  | _ => none

/-- save_chat_history_background (chat.py lines 165-177): a full overwrite of
chat_history for the row. -/
def save_chat_history_background (st : List UserNode) (u node_id : String)
    (chat_history : List Msg) : List UserNode :=
  sqlUpdate st (keyb u node_id) (fun r => { r with chat_history := chat_history })

/-- process_curiosity_score (chat.py lines 103-163): the deferred scoring and
completion cascade.  It increments only when the first matching row has score
below 5 and is not completed; on reaching 5 it marks the node completed and
unlocks every stored neighbor unconditionally. -/
def process_curiosity_score (st : List UserNode) (u node_id : String)
    (is_curious : Bool) : List UserNode :=
  if !is_curious then st
  else
    match sqlSelect st (keyb u node_id) with
    | [] => st
    | r0 :: _ =>
      if r0.curiosity_score < 5 && !r0.is_completed then
        let st1 := sqlUpdate st (keyb u node_id)
          (fun r => { r with curiosity_score := r.curiosity_score + 1 })
        match (sqlSelect st1 (keyb u node_id)).map (·.curiosity_score) with
        | [] => st1
        | new_score :: _ =>
          if 5 ≤ new_score then
            let st2 := sqlUpdate st1 (keyb u node_id)
              (fun r => { r with is_completed := true })
            match (sqlSelect st2 (keyb u node_id)).map (·.neighbors) with
            | [] => st2
            | neighbors :: _ =>
              if neighbors.isEmpty then st2
              else
                sqlUpdate st2 (fun r => r.user_id == u && neighbors.contains r.node_id)
                  (fun r => { r with is_unlocked := true })
          else st1
      else st

/-- The JSON body returned by POST /chat. -/
structure ChatResponse where
  message : String
  curiosity_increased : Json
  curiosity_reason : Json

/-- Python list[-10:]. -/
def lastN {α : Type} (n : Nat) (l : List α) : List α :=
  l.drop (l.length - n)

/-- POST /chat (chat.py lines 195-284).  The two oracle calls are external
collaborators: answer is the outcome of get_chat_response (error carries the
exception text) and judge the outcome of the judgment call; the two run
concurrently and neither reads the store.  Background tasks run only when the
handler returns normally, in registration order (history save, then scoring);
the returned state is the store after both.  Every exception raised inside the
handler body, including the 400 for a missing user message, is re-raised by
its catch-all except as a 500. -/
def chat (st : List UserNode) (u : String) (messages : List Msg) (node_id : String)
    (answer : Except String String) (judge : JudgeOutcome) :
    Except HTTPException ChatResponse × List UserNode :=
  let user_messages := messages.filter (fun m => m.role == "user")
  match user_messages.getLast? with
  | none => (.error ⟨500, pyStr 400 "No user message found"⟩, st)
  | some _ =>
    match answer with
    | .error e => (.error ⟨500, e⟩, st)
    | .ok assistant_message =>
      let curiosity_eval := evaluate_curiosity judge
      let chat_history := lastN 10 (messages ++ [⟨"assistant", assistant_message⟩])
      match jsonGet curiosity_eval "is_curious" (.bool false) with
      | .error e => (.error ⟨500, e⟩, st)
      | .ok is_curious =>
        let response : ChatResponse :=
          { message := assistant_message
            curiosity_increased := is_curious
            curiosity_reason :=
              if jsonTruthy is_curious then jsonGet0 curiosity_eval "reason" else .null }
        let st1 := save_chat_history_background st u node_id chat_history
        let st2 := process_curiosity_score st1 u node_id (jsonTruthy is_curious)
        (.ok response, st2)

/-- The invariant of spec section 3, as a check over the whole store:
Completed implies Unlocked, row by row. -/
def invB (st : List UserNode) : Bool :=
  st.all fun r => !r.is_completed || r.is_unlocked

/-- Proof infrastructure: a row transformer of the kind the propagation loop
applies — it preserves the key, the neighbor list and the completion flag,
and never clears is_unlocked. -/
def RowStep (f : UserNode → UserNode) : Prop :=
  ∀ r, (f r).user_id = r.user_id ∧ (f r).node_id = r.node_id ∧
    (f r).neighbors = r.neighbors ∧ (f r).is_completed = r.is_completed ∧
    (r.is_unlocked = true → (f r).is_unlocked = true)

/-- Proof infrastructure: t arises from s by one pointwise pass of a RowStep
transformer. -/
def Rel (s t : List UserNode) : Prop :=
  ∃ f, RowStep f ∧ t = s.map f

/-- Proof infrastructure: the guard of the propagation loop body of
complete_node — a first matching neighbor row exists and the completed count
over its neighbor set M is positive. -/
def unlockFires (u : String) (st : List UserNode) (n : String) : Prop :=
  match (sqlSelect st (keyb u n)).map (·.neighbors) with
  | [] => False
  | M :: _ =>
    0 < (sqlSelect st fun r =>
      r.user_id == u && M.contains r.node_id && r.is_completed).length

end Valence

namespace Valence

/-- A map that fixes every element of a list is the identity on it. -/
theorem map_eq_self {α : Type} {l : List α} {f : α → α} (h : ∀ a ∈ l, f a = a) :
    l.map f = l := by
  induction l with
  | nil => rfl
  | cons a t ih =>
    simp only [List.map_cons]
    rw [h a (by simp), ih (fun x hx => h x (by simp [hx]))]

/-- Filtering the image of a map, when the predicate factors through the map. -/
theorem filter_map_general {α β : Type} (f : α → β) (p : β → Bool) (q : α → Bool)
    (h : ∀ a, p (f a) = q a) (l : List α) :
    (l.map f).filter p = (l.filter q).map f := by
  induction l with
  | nil => rfl
  | cons a t ih =>
    simp only [List.map_cons, List.filter_cons, h a]
    cases hq : q a <;> simp [ih]

/-- Setting is_unlocked on a row where it already holds changes nothing. -/
theorem unlock_eta (r : UserNode) (h : r.is_unlocked = true) :
    ({ r with is_unlocked := true } : UserNode) = r := by
  cases r; simp_all

/-- Setting is_completed on a row where it already holds changes nothing. -/
theorem complete_eta (r : UserNode) (h : r.is_completed = true) :
    ({ r with is_completed := true } : UserNode) = r := by
  cases r; simp_all

theorem rowStep_id : RowStep (fun r => r) :=
  fun _ => ⟨rfl, rfl, rfl, rfl, fun h => h⟩

theorem rowStep_comp {f g : UserNode → UserNode} (hf : RowStep f) (hg : RowStep g) :
    RowStep (fun r => g (f r)) := by
  intro r
  obtain ⟨h1, h2, h3, h4, h5⟩ := hf r
  obtain ⟨g1, g2, g3, g4, g5⟩ := hg (f r)
  exact ⟨g1.trans h1, g2.trans h2, g3.trans h3, g4.trans h4, fun h => g5 (h5 h)⟩

theorem rowStep_unlockF : RowStep (fun r => { r with is_unlocked := true }) :=
  fun _ => ⟨rfl, rfl, rfl, rfl, fun _ => rfl⟩

theorem rowStep_ite {p : UserNode → Bool} {f : UserNode → UserNode} (hf : RowStep f) :
    RowStep (fun r => if p r then f r else r) := by
  intro r
  dsimp only
  by_cases hp : p r = true
  · rw [if_pos hp]
    exact hf r
  · rw [if_neg hp]
    exact ⟨rfl, rfl, rfl, rfl, fun h => h⟩

theorem rel_refl (s : List UserNode) : Rel s s :=
  ⟨fun r => r, rowStep_id, (map_eq_self (fun _ _ => rfl)).symm⟩

theorem rel_trans {a b c : List UserNode} (h1 : Rel a b) (h2 : Rel b c) : Rel a c := by
  obtain ⟨f, hf, rfl⟩ := h1
  obtain ⟨g, hg, rfl⟩ := h2
  exact ⟨fun r => g (f r), rowStep_comp hf hg, by rw [List.map_map]; rfl⟩

theorem rel_sqlUpdate {f : UserNode → UserNode} (hf : RowStep f)
    (s : List UserNode) (p : UserNode → Bool) : Rel s (sqlUpdate s p f) :=
  ⟨fun r => if p r then f r else r, rowStep_ite hf, rfl⟩

theorem keyb_of_rowStep {f : UserNode → UserNode} (hf : RowStep f)
    (u x : String) (r : UserNode) : keyb u x (f r) = keyb u x r := by
  obtain ⟨h1, h2, _, _, _⟩ := hf r
  simp [keyb, h1, h2]

theorem rel_unlockStep (u : String) (s : List UserNode) (n : String) :
    Rel s (unlockStep u s n) := by
  unfold unlockStep
  split
  · exact rel_refl s
  · dsimp only
    split
    · exact rel_sqlUpdate rowStep_unlockF s (keyb u n)
    · exact rel_refl s

theorem rel_foldl_unlock (u : String) (ns : List String) (s : List UserNode) :
    Rel s (ns.foldl (unlockStep u) s) := by
  induction ns generalizing s with
  | nil => exact rel_refl s
  | cons n rest ih =>
    simp only [List.foldl_cons]
    exact rel_trans (rel_unlockStep u s n) (ih (unlockStep u s n))

end Valence

namespace Valence

/-- Selecting a key and reading neighbors is invariant along propagation. -/
theorem sel_map_eq_of_rel {s t : List UserNode} (h : Rel s t) (u n : String) :
    (sqlSelect t (keyb u n)).map (·.neighbors) =
      (sqlSelect s (keyb u n)).map (·.neighbors) := by
  obtain ⟨f, hf, rfl⟩ := h
  unfold sqlSelect
  rw [filter_map_general f (keyb u n) (keyb u n) (keyb_of_rowStep hf u n)]
  rw [List.map_map]
  exact List.map_congr_left fun r _ => (hf r).2.2.1

/-- The completed count over a neighbor set M is invariant along propagation. -/
theorem count_completed_eq_of_rel {s t : List UserNode} (h : Rel s t)
    (u : String) (M : List String) :
    (sqlSelect t fun r =>
        r.user_id == u && M.contains r.node_id && r.is_completed).length =
      (sqlSelect s fun r =>
        r.user_id == u && M.contains r.node_id && r.is_completed).length := by
  obtain ⟨f, hf, rfl⟩ := h
  unfold sqlSelect
  rw [filter_map_general f _ (fun r =>
        r.user_id == u && M.contains r.node_id && r.is_completed) ?hpred]
  · rw [List.length_map]
  case hpred =>
    intro r
    obtain ⟨h1, h2, _, h4, _⟩ := hf r
    rw [h1, h2, h4]

/-- The propagation guard is invariant along propagation. -/
theorem unlockFires_iff_of_rel {s t : List UserNode} (h : Rel s t) (u n : String) :
    unlockFires u t n ↔ unlockFires u s n := by
  unfold unlockFires
  rw [sel_map_eq_of_rel h u n]
  cases (sqlSelect s (keyb u n)).map (·.neighbors) with
  | nil => exact Iff.rfl
  | cons M rest =>
    dsimp only
    rw [count_completed_eq_of_rel h u M]

/-- When the guard fails, the loop body does nothing. -/
theorem unlockStep_eq_of_not_fires {u : String} {s : List UserNode} {n : String}
    (h : ¬ unlockFires u s n) : unlockStep u s n = s := by
  unfold unlockStep
  unfold unlockFires at h
  cases hM : (sqlSelect s (keyb u n)).map (·.neighbors) with
  | nil => rfl
  | cons M rest =>
    rw [hM] at h
    dsimp only at h ⊢
    rw [if_neg h]

/-- When the guard holds, the loop body is the unlock UPDATE on the key. -/
theorem unlockStep_eq_of_fires {u : String} {s : List UserNode} {n : String}
    (h : unlockFires u s n) :
    unlockStep u s n =
      sqlUpdate s (keyb u n) (fun r => { r with is_unlocked := true }) := by
  unfold unlockStep
  unfold unlockFires at h
  cases hM : (sqlSelect s (keyb u n)).map (·.neighbors) with
  | nil => rw [hM] at h; exact absurd h (by simp)
  | cons M rest =>
    rw [hM] at h
    dsimp only at h ⊢
    rw [if_pos h]

/-- After a firing step, every row of the stepped key is unlocked. -/
theorem unlocked_after_fires {u : String} {s : List UserNode} {n : String}
    (h : unlockFires u s n) :
    ∀ r ∈ unlockStep u s n, keyb u n r = true → r.is_unlocked = true := by
  rw [unlockStep_eq_of_fires h]
  intro r hr hk
  simp only [sqlUpdate, List.mem_map] at hr
  obtain ⟨r0, _, rfl⟩ := hr
  by_cases h0 : keyb u n r0 = true
  · rw [if_pos h0]
  · rw [if_neg h0] at hk
    exact absurd hk h0

/-- Unlockedness of a key persists along propagation. -/
theorem key_unlocked_of_rel {s t : List UserNode} (h : Rel s t) (u n : String)
    (hs : ∀ r ∈ s, keyb u n r = true → r.is_unlocked = true) :
    ∀ r ∈ t, keyb u n r = true → r.is_unlocked = true := by
  obtain ⟨f, hf, rfl⟩ := h
  intro r hr hk
  simp only [List.mem_map] at hr
  obtain ⟨r0, hr0, rfl⟩ := hr
  rw [keyb_of_rowStep hf] at hk
  exact (hf r0).2.2.2.2 (hs r0 hr0 hk)

/-- Completedness of a key persists along propagation. -/
theorem key_completed_of_rel {s t : List UserNode} (h : Rel s t) (u x : String)
    (hs : ∀ r ∈ s, keyb u x r = true → r.is_completed = true) :
    ∀ r ∈ t, keyb u x r = true → r.is_completed = true := by
  obtain ⟨f, hf, rfl⟩ := h
  intro r hr hk
  simp only [List.mem_map] at hr
  obtain ⟨r0, hr0, rfl⟩ := hr
  rw [keyb_of_rowStep hf] at hk
  rw [(hf r0).2.2.2.1]
  exact hs r0 hr0 hk

/-- After the propagation pass, every neighbor whose guard holds in the final
state has all its key rows unlocked. -/
theorem foldl_unlock_stable (u : String) (ns : List String) (s : List UserNode) :
    ∀ n ∈ ns, unlockFires u (ns.foldl (unlockStep u) s) n →
      ∀ r ∈ ns.foldl (unlockStep u) s, keyb u n r = true → r.is_unlocked = true := by
  induction ns generalizing s with
  | nil => intro n hn; exact absurd hn (by simp)
  | cons m rest ih =>
    intro n hn hfire
    simp only [List.foldl_cons] at hfire ⊢
    rcases List.mem_cons.mp hn with rfl | hn2
    · have hrel : Rel (unlockStep u s n) (rest.foldl (unlockStep u) (unlockStep u s n)) :=
        rel_foldl_unlock u rest (unlockStep u s n)
      have hfire1 : unlockFires u (unlockStep u s n) n :=
        (unlockFires_iff_of_rel hrel u n).mp hfire
      have hfire0 : unlockFires u s n :=
        (unlockFires_iff_of_rel (rel_unlockStep u s n) u n).mp hfire1
      exact key_unlocked_of_rel hrel u n (unlocked_after_fires hfire0)
    · exact ih (unlockStep u s m) n hn2 hfire

/-- A propagation pass over a state already stable for its neighbors is the
identity. -/
theorem foldl_unlock_idem (u : String) (ns : List String) (s : List UserNode)
    (h : ∀ n ∈ ns, unlockFires u s n → ∀ r ∈ s, keyb u n r = true → r.is_unlocked = true) :
    ns.foldl (unlockStep u) s = s := by
  induction ns with
  | nil => rfl
  | cons m rest ih =>
    have hm : unlockStep u s m = s := by
      by_cases hf : unlockFires u s m
      · rw [unlockStep_eq_of_fires hf]
        apply map_eq_self
        intro r hr
        by_cases hk : keyb u m r = true
        · rw [if_pos hk]
          exact unlock_eta r (h m (by simp) hf r hr hk)
        · rw [if_neg hk]
      · exact unlockStep_eq_of_not_fires hf
    simp only [List.foldl_cons, hm]
    exact ih (fun n hn => h n (by simp [hn]))

/-- After the completion UPDATE, every key row is completed. -/
theorem key_completed_after_update (st : List UserNode) (u x : String) :
    ∀ r ∈ sqlUpdate st (keyb u x) (fun r => { r with is_completed := true }),
      keyb u x r = true → r.is_completed = true := by
  intro r hr hk
  simp only [sqlUpdate, List.mem_map] at hr
  obtain ⟨r0, _, rfl⟩ := hr
  by_cases h0 : keyb u x r0 = true
  · rw [if_pos h0]
  · rw [if_neg h0] at hk
    exact absurd hk h0

end Valence

namespace Valence

/-- C5: CompleteNode is idempotent — for every store, user and node, running
complete_node on the state produced by complete_node returns the identical
state and the identical response (the full neighbor list on success, the same
error otherwise), so two sequential calls equal one. -/
theorem C5_complete_idempotent (st : List UserNode) (u x : String) :
    complete_node (complete_node st u x).1 u x = complete_node st u x := by
  have hkeyb : ∀ r : UserNode,
      keyb u x (if keyb u x r then ({ r with is_completed := true } : UserNode) else r) =
        keyb u x r := by
    intro r
    by_cases h0 : keyb u x r = true
    · rw [if_pos h0]
      rfl
    · rw [if_neg h0]
  have run_nil : ∀ s : List UserNode, sqlSelect s (keyb u x) = [] →
      complete_node s u x = (s, .error ⟨500, pyStr 404 "Node not found"⟩) := by
    intro s hnil
    have hs1 : sqlUpdate s (keyb u x) (fun r => { r with is_completed := true }) = s := by
      apply map_eq_self
      intro r hr
      rw [if_neg (List.filter_eq_nil_iff.mp hnil r hr)]
    simp only [complete_node]
    rw [hs1, hnil]
    rfl
  have run_cons : ∀ (s : List UserNode) (r0 : UserNode) (tl : List UserNode),
      sqlSelect s (keyb u x) = r0 :: tl → keyb u x r0 = true →
      complete_node s u x =
        (r0.neighbors.foldl (unlockStep u)
          (sqlUpdate s (keyb u x) (fun r => { r with is_completed := true })),
         .ok r0.neighbors) := by
    intro s r0 tl hsel hk0
    have hmap : (sqlSelect (sqlUpdate s (keyb u x) (fun r => { r with is_completed := true }))
        (keyb u x)).map (·.neighbors)
        = r0.neighbors :: (tl.map (fun r =>
            if keyb u x r then ({ r with is_completed := true } : UserNode) else r)).map
            (·.neighbors) := by
      show ((s.map fun r =>
        if keyb u x r then ({ r with is_completed := true } : UserNode) else r).filter
          (keyb u x)).map (·.neighbors) = _
      rw [filter_map_general _ (keyb u x) (keyb u x) hkeyb]
      rw [show s.filter (keyb u x) = r0 :: tl from hsel]
      rw [List.map_cons, List.map_cons, if_pos hk0]
    simp only [complete_node]
    rw [hmap]
  cases hsel : sqlSelect st (keyb u x) with
  | nil =>
    rw [run_nil st hsel]
    exact run_nil st hsel
  | cons r0 tl =>
    have hk0 : keyb u x r0 = true := by
      have hmem : r0 ∈ sqlSelect st (keyb u x) := by
        rw [hsel]; exact List.mem_cons_self _ _
      exact (List.mem_filter.mp hmem).2
    rw [run_cons st r0 tl hsel hk0]
    dsimp only
    set st1 : List UserNode :=
      sqlUpdate st (keyb u x) (fun r => { r with is_completed := true }) with hst1def
    set st2 : List UserNode := r0.neighbors.foldl (unlockStep u) st1 with hst2def
    have hrel : Rel st1 st2 := by
      rw [hst2def]; exact rel_foldl_unlock u r0.neighbors st1
    have hcomp1 : ∀ r ∈ st1, keyb u x r = true → r.is_completed = true := by
      rw [hst1def]; exact key_completed_after_update st u x
    have hcomp2 : ∀ r ∈ st2, keyb u x r = true → r.is_completed = true :=
      key_completed_of_rel hrel u x hcomp1
    have hupd2 : sqlUpdate st2 (keyb u x) (fun r => { r with is_completed := true }) = st2 := by
      apply map_eq_self
      intro r hr
      by_cases hk : keyb u x r = true
      · rw [if_pos hk]; exact complete_eta r (hcomp2 r hr hk)
      · rw [if_neg hk]
    obtain ⟨G, hG, hmapG⟩ := hrel
    have hsel1 : sqlSelect st1 (keyb u x)
        = ({ r0 with is_completed := true } : UserNode) ::
          tl.map (fun r =>
            if keyb u x r then ({ r with is_completed := true } : UserNode) else r) := by
      rw [hst1def]
      show (st.map fun r =>
        if keyb u x r then ({ r with is_completed := true } : UserNode) else r).filter
          (keyb u x) = _
      rw [filter_map_general _ (keyb u x) (keyb u x) hkeyb,
        show st.filter (keyb u x) = r0 :: tl from hsel, List.map_cons, if_pos hk0]
    have hsel2 : sqlSelect st2 (keyb u x)
        = G { r0 with is_completed := true } ::
          (tl.map (fun r =>
            if keyb u x r then ({ r with is_completed := true } : UserNode) else r)).map G := by
      rw [hmapG]
      show (st1.map G).filter (keyb u x) = _
      rw [filter_map_general G (keyb u x) (keyb u x) (keyb_of_rowStep hG u x),
        show st1.filter (keyb u x) = _ from hsel1, List.map_cons]
    have hk0' : keyb u x (G { r0 with is_completed := true }) = true := by
      rw [keyb_of_rowStep hG]
      exact hk0
    have hnbG : (G ({ r0 with is_completed := true } : UserNode)).neighbors = r0.neighbors :=
      (hG _).2.2.1
    rw [run_cons st2 (G { r0 with is_completed := true }) _ hsel2 hk0']
    rw [hnbG, hupd2]
    have hstable := foldl_unlock_stable u r0.neighbors st1
    rw [← hst2def] at hstable
    rw [foldl_unlock_idem u r0.neighbors st2 hstable]

end Valence

namespace Valence

/-- C1 (amended): AdjustCuriosity applies the delta unconditionally — every
key row's score becomes old score plus delta with every other field unchanged,
non-key rows are untouched, and the returned value is the first key row's old
score plus delta (404 when no row matches); no clipping at 0 or 5 happens. -/
theorem C1_adjust_unclamped (st : List UserNode) (u x : String) (score_delta : Int) :
    List.Forall₂ (fun r s =>
      s.user_id = r.user_id ∧ s.node_id = r.node_id ∧ s.neighbors = r.neighbors ∧
      s.is_completed = r.is_completed ∧ s.is_unlocked = r.is_unlocked ∧
      s.chat_history = r.chat_history ∧
      s.curiosity_score =
        (if keyb u x r then r.curiosity_score + score_delta else r.curiosity_score))
      st (update_curiosity_score st u x score_delta).1 ∧
    (update_curiosity_score st u x score_delta).2 =
      (match (sqlSelect st (keyb u x)).map (·.curiosity_score) with
       | [] => .error ⟨404, "Node not found"⟩
       | s :: _ => .ok (s + score_delta)) := by
  constructor
  · have h1 : (update_curiosity_score st u x score_delta).1 =
        st.map (fun r => if keyb u x r then
          ({ r with curiosity_score := r.curiosity_score + score_delta } : UserNode) else r) := by
      simp only [update_curiosity_score]
      split <;> rfl
    rw [h1, List.forall₂_map_right_iff, List.forall₂_same]
    intro r _
    by_cases hk : keyb u x r = true
    · rw [if_pos hk, if_pos hk]
      exact ⟨rfl, rfl, rfl, rfl, rfl, rfl, rfl⟩
    · rw [if_neg hk, if_neg hk]
      exact ⟨rfl, rfl, rfl, rfl, rfl, rfl, rfl⟩
  · have hkeyb2 : ∀ r : UserNode, keyb u x (if keyb u x r then
        ({ r with curiosity_score := r.curiosity_score + score_delta } : UserNode) else r) =
        keyb u x r := by
      intro r
      by_cases h0 : keyb u x r = true
      · rw [if_pos h0]; rfl
      · rw [if_neg h0]
    simp only [update_curiosity_score]
    have hsel1 : (sqlSelect (sqlUpdate st (keyb u x) fun r =>
        { r with curiosity_score := r.curiosity_score + score_delta })
          (keyb u x)).map (·.curiosity_score)
        = (sqlSelect st (keyb u x)).map (fun r =>
            if keyb u x r then r.curiosity_score + score_delta else r.curiosity_score) := by
      show ((st.map fun r => if keyb u x r then
        ({ r with curiosity_score := r.curiosity_score + score_delta } : UserNode) else r).filter
          (keyb u x)).map (·.curiosity_score) = _
      rw [filter_map_general _ (keyb u x) (keyb u x) hkeyb2, List.map_map]
      apply List.map_congr_left
      intro r _
      by_cases hk : keyb u x r = true
      · simp only [Function.comp]
        rw [if_pos hk, if_pos hk]
      · simp only [Function.comp]
        rw [if_neg hk, if_neg hk]
    rw [hsel1]
    cases hsel : sqlSelect st (keyb u x) with
    | nil => rfl
    | cons r0 tl =>
      have hk0 : keyb u x r0 = true := by
        have hmem : r0 ∈ sqlSelect st (keyb u x) := by
          rw [hsel]; exact List.mem_cons_self _ _
        exact (List.mem_filter.mp hmem).2
      simp only [List.map_cons]
      rw [if_pos hk0]

/-- C1 counterexample: a stored node with score 5 (inside the claimed bounds)
and delta plus one — the call is not a no-op: it stores and returns 6, so the
post-state violates the claimed bound 0 to 5. -/
theorem C1_cap_counterexample :
    (update_curiosity_score [⟨"u", "x", [], false, 5, true, []⟩] "u" "x" 1).2 = .ok 6 ∧
    ((update_curiosity_score [⟨"u", "x", [], false, 5, true, []⟩] "u" "x" 1).1.all
      fun r => decide (0 ≤ r.curiosity_score) && decide (r.curiosity_score ≤ 5)) = false := by
  exact ⟨rfl, rfl⟩

/-- C4: on a missing (user, node) row CompleteNode does fail, but the 404
NotFound it raises is intercepted by its own catch-all except handler and
re-raised as a 500 internal error, so the caller does not receive NotFound
unchanged. -/
theorem C4_notfound_masked_as_500 :
    complete_node [] "u" "molarity" = ([], .error ⟨500, pyStr 404 "Node not found"⟩) := rfl

/-- C7: when any rows already exist for the user, initialize_graph inserts
nothing — the state is returned unchanged — and the response carries the
existing row count. -/
theorem C7_reinit_is_noop (st : List UserNode) (u : String) (g : GraphData)
    (h : 0 < (sqlSelect st (fun r => r.user_id == u)).length) :
    initialize_graph st u g =
      (st, .ok ⟨"Graph already initialized",
        (sqlSelect st (fun r => r.user_id == u)).length⟩) := by
  simp only [initialize_graph]
  rw [if_pos h]

/-- C7 witness: a user with one existing row; the second initialization call
returns the unchanged state and count 1. -/
theorem C7_reinit_is_noop_witness :
    initialize_graph [⟨"u", "moles", [], false, 0, true, []⟩] "u" ⟨["moles"], []⟩ =
      ([⟨"u", "moles", [], false, 0, true, []⟩],
       .ok ⟨"Graph already initialized", 1⟩) :=
  C7_reinit_is_noop _ _ _ (by decide)

end Valence

namespace Valence

/-- C6: ResetGraph returns ok and maps each stored row to its seed state: the
key and neighbor list are unchanged (and no row is deleted — the row lists
correspond one to one), and for rows of the user is_completed becomes false,
the score becomes 0, the history becomes empty, and is_unlocked holds exactly
for the seed nodes moles and defining_matter; rows of other users are
untouched. -/
theorem C6_reset_restores_seed_state (st : List UserNode) (u : String) :
    (reset_graph st u).2 = .ok "Graph reset successfully" ∧
    List.Forall₂ (fun r s =>
      s.user_id = r.user_id ∧ s.node_id = r.node_id ∧ s.neighbors = r.neighbors ∧
      (r.user_id = u →
        s.is_completed = false ∧ s.curiosity_score = 0 ∧ s.chat_history = [] ∧
        (s.is_unlocked = true ↔ (r.node_id = "moles" ∨ r.node_id = "defining_matter"))) ∧
      (¬ r.user_id = u → s = r))
      st (reset_graph st u).1 := by
  refine ⟨rfl, ?_⟩
  have h1 : (reset_graph st u).1 =
      st.map (fun r => if (r.user_id == u) then
        ({ r with
            is_completed := false
            curiosity_score := 0
            is_unlocked := seedNodes.contains r.node_id
            chat_history := [] } : UserNode) else r) := rfl
  rw [h1, List.forall₂_map_right_iff, List.forall₂_same]
  intro r _
  by_cases hu : r.user_id = u
  · rw [if_pos (by simp [hu])]
    refine ⟨rfl, rfl, rfl, fun _ => ⟨rfl, rfl, rfl, ?_⟩, fun hn => absurd hu hn⟩
    simp [seedNodes]
  · rw [if_neg (by simp [hu])]
    exact ⟨rfl, rfl, rfl, fun h => absurd h hu, fun _ => rfl⟩

/-- C9 (amended): when the judgment oracle call fails or its output does not
parse, evaluate_curiosity degrades to the fallback judgment — is_curious
false with reason the string Evaluation failed (capitalized, unlike the
claimed lowercase text) — and the chat turn still returns the generated
answer with curiosity_increased false. -/
theorem C9_judgment_failure_degrades (st : List UserNode) (u node_id : String)
    (messages : List Msg) (assistant : String) (judge : JudgeOutcome) (m : Msg)
    (hjudge : judge = .apiFailure ∨ judge = .output none)
    (hmsg : (messages.filter fun mm => mm.role == "user").getLast? = some m) :
    evaluate_curiosity judge = fallbackJudgment ∧
    reasonOf (evaluate_curiosity judge) = some "Evaluation failed" ∧
    (chat st u messages node_id (.ok assistant) judge).1 =
      .ok { message := assistant, curiosity_increased := .bool false,
            curiosity_reason := .null } := by
  have hev : evaluate_curiosity judge = fallbackJudgment := by
    rcases hjudge with rfl | rfl <;> rfl
  refine ⟨hev, by rw [hev]; rfl, ?_⟩
  simp only [chat]
  rw [hmsg, hev]
  rfl

/-- C9 counterexample: the degraded judgment carries the reason string
Evaluation failed, which differs from the claimed literal evaluation failed. -/
theorem C9_reason_capitalization_counterexample :
    reasonOf (evaluate_curiosity .apiFailure) = some "Evaluation failed" ∧
    ("Evaluation failed" : String) ≠ "evaluation failed" :=
  ⟨rfl, by decide⟩

/-- C9 witness: an oracle failure on a one-question turn — the judgment
degrades and the turn still answers. -/
theorem C9_judgment_failure_degrades_witness :
    evaluate_curiosity .apiFailure = fallbackJudgment ∧
    reasonOf (evaluate_curiosity .apiFailure) = some "Evaluation failed" ∧
    (chat [] "u" [⟨"user", "why is ice less dense"⟩] "x" (.ok "answer") .apiFailure).1 =
      .ok { message := "answer", curiosity_increased := .bool false,
            curiosity_reason := .null } :=
  C9_judgment_failure_degrades [] "u" "x" [⟨"user", "why is ice less dense"⟩] "answer"
    .apiFailure ⟨"user", "why is ice less dense"⟩ (Or.inl rfl) rfl

end Valence

namespace Valence

theorem rowStep_bump (d : Int) :
    RowStep (fun r => { r with curiosity_score := r.curiosity_score + d }) :=
  fun _ => ⟨rfl, rfl, rfl, rfl, fun h => h⟩

/-- The Completed-implies-Unlocked property survives any RowStep pass. -/
theorem inv_of_rel {s t : List UserNode} (h : Rel s t)
    (hs : ∀ r ∈ s, r.is_completed = true → r.is_unlocked = true) :
    ∀ r ∈ t, r.is_completed = true → r.is_unlocked = true := by
  obtain ⟨f, hf, rfl⟩ := h
  intro r hr hc
  simp only [List.mem_map] at hr
  obtain ⟨r0, hr0, rfl⟩ := hr
  rw [(hf r0).2.2.2.1] at hc
  exact (hf r0).2.2.2.2 (hs r0 hr0 hc)

/-- The completion UPDATE preserves Completed-implies-Unlocked when every key
row is already unlocked. -/
theorem inv_after_complete_update (s : List UserNode) (u x : String)
    (hinv : ∀ r ∈ s, r.is_completed = true → r.is_unlocked = true)
    (hun : ∀ r ∈ s, keyb u x r = true → r.is_unlocked = true) :
    ∀ r ∈ sqlUpdate s (keyb u x) (fun r => { r with is_completed := true }),
      r.is_completed = true → r.is_unlocked = true := by
  intro r hr
  simp only [sqlUpdate, List.mem_map] at hr
  obtain ⟨r0, hr0, rfl⟩ := hr
  by_cases hk : keyb u x r0 = true
  · rw [if_pos hk]
    intro _
    exact hun r0 hr0 hk
  · rw [if_neg hk]
    exact hinv r0 hr0

theorem invB_iff (st : List UserNode) :
    invB st = true ↔ ∀ r ∈ st, r.is_completed = true → r.is_unlocked = true := by
  simp only [invB, List.all_eq_true, Bool.or_eq_true, Bool.not_eq_eq_eq_not, Bool.not_true]
  constructor
  · intro h r hr hc
    rcases h r hr with h1 | h1
    · rw [hc] at h1
      cases h1
    · exact h1
  · intro h r hr
    cases hc : r.is_completed with
    | false => exact Or.inl rfl
    | true => exact Or.inr (h r hr hc)

theorem selAll_iff (st : List UserNode) (u x : String) :
    (sqlSelect st (keyb u x)).all (·.is_unlocked) = true ↔
      ∀ r ∈ st, keyb u x r = true → r.is_unlocked = true := by
  simp only [sqlSelect, List.all_eq_true, List.mem_filter]
  constructor
  · intro h r hr hk
    exact h r ⟨hr, hk⟩
  · intro h r hrk
    exact h r hrk.1 hrk.2

/-- Every row of the state after complete_node satisfies the invariant, when
the completed key was already unlocked. -/
theorem inv_complete_node (st : List UserNode) (u x : String)
    (hinv : ∀ r ∈ st, r.is_completed = true → r.is_unlocked = true)
    (hun : ∀ r ∈ st, keyb u x r = true → r.is_unlocked = true) :
    ∀ r ∈ (complete_node st u x).1, r.is_completed = true → r.is_unlocked = true := by
  have base := inv_after_complete_update st u x hinv hun
  simp only [complete_node]
  split
  · exact base
  · exact inv_of_rel (rel_foldl_unlock u _ _) base

/-- Every row of the state after process_curiosity_score satisfies the
invariant, when the scored key was already unlocked. -/
theorem inv_process (st : List UserNode) (u x : String) (b : Bool)
    (hinv : ∀ r ∈ st, r.is_completed = true → r.is_unlocked = true)
    (hun : ∀ r ∈ st, keyb u x r = true → r.is_unlocked = true) :
    ∀ r ∈ process_curiosity_score st u x b,
      r.is_completed = true → r.is_unlocked = true := by
  simp only [process_curiosity_score]
  split
  · exact hinv
  · split
    · exact hinv
    · split
      · have hrel1 : Rel st (sqlUpdate st (keyb u x)
            (fun r => { r with curiosity_score := r.curiosity_score + 1 })) :=
          rel_sqlUpdate (rowStep_bump 1) st (keyb u x)
        have hinv1 := inv_of_rel hrel1 hinv
        have hun1 := key_unlocked_of_rel hrel1 u x hun
        split
        · exact hinv1
        · split
          · have hinv2 := inv_after_complete_update _ u x hinv1 hun1
            split
            · exact hinv2
            · split
              · exact hinv2
              · exact inv_of_rel (rel_sqlUpdate rowStep_unlockF _ _) hinv2
          · exact hinv1
      · exact hinv

/-- C2 (amended): neither completion path unlocks the node it completes — the
invariant Completed-implies-Unlocked is preserved by manual completion and by
the score-triggered cascade provided every row of the completed key is already
unlocked when completion runs; completing a locked node violates it (see the
counterexample). -/
theorem C2_completion_preserves_inv_on_unlocked (st : List UserNode) (u x : String)
    (hinv : invB st = true)
    (hun : (sqlSelect st (keyb u x)).all (·.is_unlocked) = true) :
    invB (complete_node st u x).1 = true ∧
    invB (process_curiosity_score st u x true) = true ∧
    invB (process_curiosity_score st u x false) = true := by
  rw [invB_iff] at hinv
  rw [selAll_iff] at hun
  refine ⟨?_, ?_, ?_⟩
  · rw [invB_iff]
    exact inv_complete_node st u x hinv hun
  · rw [invB_iff]
    exact inv_process st u x true hinv hun
  · rw [invB_iff]
    exact inv_process st u x false hinv hun

/-- C2 counterexample: completing a locked node — complete_node sets only
is_completed, so the store ends with a row that is Completed but not
Unlocked, falsifying the claimed invariant. -/
theorem C2_locked_completion_counterexample :
    invB ((complete_node [⟨"u", "x", [], false, 0, false, []⟩] "u" "x").1) = false := rfl

/-- C2 witness: completing an unlocked node of an invariant-satisfying store
keeps the invariant, on both the manual and the score-triggered path. -/
theorem C2_completion_preserves_inv_on_unlocked_witness :
    invB ((complete_node [⟨"u", "x", ["y"], false, 0, true, []⟩] "u" "x").1) = true ∧
    invB (process_curiosity_score [⟨"u", "x", ["y"], false, 0, true, []⟩] "u" "x" true) = true ∧
    invB (process_curiosity_score [⟨"u", "x", ["y"], false, 0, true, []⟩] "u" "x" false) = true :=
  C2_completion_preserves_inv_on_unlocked _ "u" "x" (by decide) (by decide)

end Valence

namespace Valence

theorem mem_nbStep {y x : String} {acc : List String} {e : String × String}
    (h : y ∈ acc) : y ∈ nbStep x acc e := by
  unfold nbStep
  dsimp only
  split <;> split <;> simp [h]

theorem mem_foldl_nbStep {y x : String} {acc : List String}
    (edges : List (String × String)) (h : y ∈ acc) :
    y ∈ edges.foldl (nbStep x) acc := by
  induction edges generalizing acc with
  | nil => exact h
  | cons e rest ih => exact ih (mem_nbStep h)

/-- The edge loop puts the target into the neighbor entry of the source. -/
theorem tgt_mem_foldl_nbStep {a b : String} (edges : List (String × String))
    (acc : List String) (h : (a, b) ∈ edges) : b ∈ edges.foldl (nbStep a) acc := by
  induction edges generalizing acc with
  | nil => cases h
  | cons e rest ih =>
    rcases List.mem_cons.mp h with he | he
    · subst he
      have hb : b ∈ nbStep a acc (a, b) := by
        unfold nbStep
        dsimp only
        rw [if_pos (by simp : (((a, b).1 == a) = true))]
        split <;> simp
      exact mem_foldl_nbStep rest hb
    · exact ih _ he

/-- The edge loop puts the source into the neighbor entry of the target. -/
theorem src_mem_foldl_nbStep {a b : String} (edges : List (String × String))
    (acc : List String) (h : (a, b) ∈ edges) : a ∈ edges.foldl (nbStep b) acc := by
  induction edges generalizing acc with
  | nil => cases h
  | cons e rest ih =>
    rcases List.mem_cons.mp h with he | he
    · subst he
      have ha : a ∈ nbStep b acc (a, b) := by
        unfold nbStep
        dsimp only
        rw [if_pos (by simp : (((a, b).2 == b) = true))]
        simp
      exact mem_foldl_nbStep rest ha
    · exact ih _ he

/-- The INSERT loop on fresh, duplicate-free nodes appends one row per node
and reports the inserted count. -/
theorem insertLoop_ok (u : String) (g : GraphData) (ns : List String)
    (st : List UserNode) (acc : Nat)
    (hfresh : ∀ n ∈ ns, sqlSelect st (keyb u n) = [])
    (hnd : ns.Nodup) :
    insertLoop u g st acc ns = (st ++ ns.map (mkRow u g), .ok (acc + ns.length)) := by
  induction ns generalizing st acc with
  | nil => simp [insertLoop]
  | cons n rest ih =>
    rw [insertLoop]
    rw [if_pos ?hemp]
    case hemp =>
      rw [show sqlSelect st (keyb u n) = [] from hfresh n (by simp)]
      rfl
    rw [ih (st ++ [mkRow u g n]) (acc + 1) ?hf (List.nodup_cons.mp hnd).2]
    · simp only [List.map_cons, List.length_cons, List.append_assoc,
        List.singleton_append, Prod.mk.injEq, Except.ok.injEq]
      exact ⟨trivial, by omega⟩
    case hf =>
      intro m hm
      show (st ++ [mkRow u g n]).filter (keyb u m) = []
      rw [List.filter_append]
      rw [show st.filter (keyb u m) = [] from hfresh m (by simp [hm])]
      have hne : ¬ (n = m) := fun hEq => (List.nodup_cons.mp hnd).1 (hEq ▸ hm)
      simp [keyb, mkRow, hne]

/-- initialize_graph on a user with no rows and a duplicate-free node set
appends one seeded row per node and reports the node count. -/
theorem initialize_graph_fresh (st : List UserNode) (u : String) (g : GraphData)
    (hempty : sqlSelect st (fun r => r.user_id == u) = [])
    (hnd : g.nodes.Nodup) :
    initialize_graph st u g =
      (st ++ g.nodes.map (mkRow u g),
       .ok ⟨"Graph initialized successfully", g.nodes.length⟩) := by
  have hfresh : ∀ n ∈ g.nodes, sqlSelect st (keyb u n) = [] := by
    intro n _
    rw [show sqlSelect st (keyb u n) = st.filter (keyb u n) from rfl,
      List.filter_eq_nil_iff]
    intro r hr hk
    simp only [keyb, Bool.and_eq_true] at hk
    exact List.filter_eq_nil_iff.mp hempty r hr hk.1
  simp only [initialize_graph]
  rw [if_neg ?hc]
  case hc =>
    rw [hempty]
    simp
  rw [insertLoop_ok u g g.nodes st 0 hfresh hnd]
  simp

theorem nodup_filter_eq_singleton {l : List String} {a : String}
    (hnd : l.Nodup) (ha : a ∈ l) : l.filter (fun n => n == a) = [a] := by
  induction l with
  | nil => cases ha
  | cons h t ih =>
    rw [List.filter_cons]
    by_cases he : a = h
    · subst he
      rw [if_pos (by simp)]
      have hnin : a ∉ t := (List.nodup_cons.mp hnd).1
      have ht : t.filter (fun n => n == a) = [] := by
        rw [List.filter_eq_nil_iff]
        intro c hc hceq
        have hca : c = a := by simpa using hceq
        exact hnin (hca ▸ hc)
      rw [ht]
    · rw [if_neg (by simp only [beq_iff_eq]; exact fun hh => he hh.symm)]
      have ha2 : a ∈ t := by
        rcases List.mem_cons.mp ha with h1 | h1
        · exact absurd h1 he
        · exact h1
      exact ih (List.nodup_cons.mp hnd).2 ha2

theorem filter_map_mkRow (u : String) (g : GraphData) (a : String) (l : List String)
    (hnd : l.Nodup) (ha : a ∈ l) :
    (l.map (mkRow u g)).filter (keyb u a) = [mkRow u g a] := by
  rw [filter_map_general (mkRow u g) (keyb u a) (fun n => n == a) ?hp l]
  · rw [nodup_filter_eq_singleton hnd ha]
    rfl
  case hp =>
    intro n
    simp [keyb, mkRow]

/-- C8: after a fresh initialization from a topology with duplicate-free
nodes, each edge with both endpoints in the node set is stored symmetrically:
the target is in the stored neighbor list of the source and the source is in
the stored neighbor list of the target. -/
theorem C8_adjacency_symmetric (st : List UserNode) (u : String) (g : GraphData)
    (a b : String)
    (hempty : sqlSelect st (fun r => r.user_id == u) = [])
    (hnd : g.nodes.Nodup)
    (hedge : (a, b) ∈ g.edges) (ha : a ∈ g.nodes) (hb : b ∈ g.nodes) :
    b ∈ neighborsOf g a ∧ a ∈ neighborsOf g b ∧
    ((initialize_graph st u g).1.filter (keyb u a)).map (·.neighbors) =
      [neighborsOf g a] ∧
    ((initialize_graph st u g).1.filter (keyb u b)).map (·.neighbors) =
      [neighborsOf g b] := by
  have hrows : ∀ c ∈ g.nodes,
      ((initialize_graph st u g).1.filter (keyb u c)).map (·.neighbors) =
        [neighborsOf g c] := by
    intro c hc
    rw [initialize_graph_fresh st u g hempty hnd]
    dsimp only
    rw [List.filter_append]
    have h1 : st.filter (keyb u c) = [] := by
      rw [List.filter_eq_nil_iff]
      intro r hr hk
      simp only [keyb, Bool.and_eq_true] at hk
      exact List.filter_eq_nil_iff.mp hempty r hr hk.1
    rw [h1, filter_map_mkRow u g c g.nodes hnd hc]
    rfl
  exact ⟨tgt_mem_foldl_nbStep g.edges [] hedge, src_mem_foldl_nbStep g.edges [] hedge,
    hrows a ha, hrows b hb⟩

/-- C8 witness: the two-node seed topology with its single edge, initialized
for a fresh user — adjacency is stored symmetrically. -/
theorem C8_adjacency_symmetric_witness :
    "defining_matter" ∈
      neighborsOf ⟨["moles", "defining_matter"], [("moles", "defining_matter")]⟩ "moles" ∧
    "moles" ∈
      neighborsOf ⟨["moles", "defining_matter"], [("moles", "defining_matter")]⟩
        "defining_matter" ∧
    ((initialize_graph [] "u"
        ⟨["moles", "defining_matter"], [("moles", "defining_matter")]⟩).1.filter
      (keyb "u" "moles")).map (·.neighbors) =
      [neighborsOf ⟨["moles", "defining_matter"], [("moles", "defining_matter")]⟩ "moles"] ∧
    ((initialize_graph [] "u"
        ⟨["moles", "defining_matter"], [("moles", "defining_matter")]⟩).1.filter
      (keyb "u" "defining_matter")).map (·.neighbors) =
      [neighborsOf ⟨["moles", "defining_matter"], [("moles", "defining_matter")]⟩
        "defining_matter"] :=
  C8_adjacency_symmetric [] "u" _ "moles" "defining_matter" rfl (by decide) (by decide)
    (by decide) (by decide)

end Valence

namespace Valence

/-- Two consecutive unlock UPDATEs, one on a key and one on a membership
predicate, merge into one membership UPDATE over the extended list. -/
theorem sqlUpdate_unlock_merge (u m : String) (ns : List String) (s : List UserNode) :
    sqlUpdate (sqlUpdate s (keyb u m) (fun r => { r with is_unlocked := true }))
      (fun r => r.user_id == u && ns.contains r.node_id)
      (fun r => { r with is_unlocked := true })
    = sqlUpdate s (fun r => r.user_id == u && (m :: ns).contains r.node_id)
        (fun r => { r with is_unlocked := true }) := by
  simp only [sqlUpdate, List.map_map]
  apply List.map_congr_left
  intro r _
  simp only [Function.comp_apply]
  by_cases h1 : (r.user_id == u) = true <;>
    by_cases h2 : r.node_id = m <;>
      by_cases h3 : r.node_id ∈ ns <;>
        simp [keyb, List.contains_cons, h1, h2, h3]

/-- When a completed row with node id x exists and every first matching
neighbor row lists x among its own neighbors, the loop body on neighbor n is
exactly the unlock UPDATE on key (u, n) — also when no row matches. -/
theorem unlockStep_eq_keyUpdate (u x : String) (s : List UserNode) (n : String)
    (hx : ∃ rx ∈ s, keyb u x rx = true ∧ rx.is_completed = true)
    (hsym : ∀ r ∈ s, keyb u n r = true → x ∈ r.neighbors) :
    unlockStep u s n =
      sqlUpdate s (keyb u n) (fun r => { r with is_unlocked := true }) := by
  cases hsel : sqlSelect s (keyb u n) with
  | nil =>
    have h1 : unlockStep u s n = s := by
      unfold unlockStep
      rw [show (sqlSelect s (keyb u n)).map (·.neighbors) = [] by rw [hsel]; rfl]
    rw [h1]
    symm
    apply map_eq_self
    intro r hr
    rw [if_neg (List.filter_eq_nil_iff.mp hsel r hr)]
  | cons rn tailn =>
    apply unlockStep_eq_of_fires
    unfold unlockFires
    rw [show (sqlSelect s (keyb u n)).map (·.neighbors)
        = rn.neighbors :: tailn.map (·.neighbors) by rw [hsel]; rfl]
    dsimp only
    obtain ⟨rx, hrx, hkx, hcx⟩ := hx
    have hrn_mem : rn ∈ sqlSelect s (keyb u n) := by
      rw [hsel]; exact List.mem_cons_self _ _
    have hkn : keyb u n rn = true := (List.mem_filter.mp hrn_mem).2
    have hxin : x ∈ rn.neighbors := hsym rn (List.mem_filter.mp hrn_mem).1 hkn
    have hxnode : rx.node_id = x := by
      simp only [keyb, Bool.and_eq_true, beq_iff_eq] at hkx
      exact hkx.2
    have hxuser : (rx.user_id == u) = true := by
      simp only [keyb, Bool.and_eq_true] at hkx
      exact hkx.1
    have hmem2 : rx ∈ sqlSelect s (fun r =>
        r.user_id == u && rn.neighbors.contains r.node_id && r.is_completed) := by
      apply List.mem_filter.mpr
      refine ⟨hrx, ?_⟩
      simp [hxuser, hcx, hxnode, hxin]
    exact List.length_pos.mpr (List.ne_nil_of_mem hmem2)

/-- Under the same conditions, the whole propagation pass equals the single
bulk unlock UPDATE over the neighbor list that the chat cascade issues. -/
theorem foldl_unlock_eq_bulk (u x : String) (ns : List String) (s : List UserNode)
    (hx : ∃ rx ∈ s, keyb u x rx = true ∧ rx.is_completed = true)
    (hsym : ∀ r ∈ s, r.user_id = u → r.node_id ∈ ns → x ∈ r.neighbors) :
    ns.foldl (unlockStep u) s =
      sqlUpdate s (fun r => r.user_id == u && ns.contains r.node_id)
        (fun r => { r with is_unlocked := true }) := by
  induction ns generalizing s with
  | nil =>
    simp only [List.foldl_nil]
    symm
    apply map_eq_self
    intro r _
    rw [if_neg (by simp)]
  | cons m rest ih =>
    simp only [List.foldl_cons]
    have hstep : unlockStep u s m
        = sqlUpdate s (keyb u m) (fun r => { r with is_unlocked := true }) := by
      apply unlockStep_eq_keyUpdate u x s m hx
      intro r hr hk
      simp only [keyb, Bool.and_eq_true, beq_iff_eq] at hk
      exact hsym r hr hk.1 (by rw [hk.2]; exact List.mem_cons_self _ _)
    rw [hstep]
    rw [ih (sqlUpdate s (keyb u m) (fun r => { r with is_unlocked := true })) ?hx2 ?hsym2]
    · exact sqlUpdate_unlock_merge u m rest s
    case hx2 =>
      obtain ⟨rx, hrx, hkx, hcx⟩ := hx
      refine ⟨if keyb u m rx then { rx with is_unlocked := true } else rx, ?_, ?_, ?_⟩
      · exact List.mem_map_of_mem _ hrx
      · by_cases hkm : keyb u m rx = true
        · rw [if_pos hkm]
          exact hkx
        · rw [if_neg hkm]
          exact hkx
      · by_cases hkm : keyb u m rx = true
        · rw [if_pos hkm]
          exact hcx
        · rw [if_neg hkm]
          exact hcx
    case hsym2 =>
      intro r hr hru hrn
      simp only [sqlUpdate, List.mem_map] at hr
      obtain ⟨a, ha, rfl⟩ := hr
      by_cases hkm : keyb u m a = true
      · rw [if_pos hkm] at hru hrn ⊢
        exact hsym a ha hru (List.mem_cons_of_mem m hrn)
      · rw [if_neg hkm] at hru hrn ⊢
        exact hsym a ha hru (List.mem_cons_of_mem m hrn)

end Valence

namespace Valence

/-- C3 (amended): the score-triggered completion does not evaluate the unlock
predicate — it unlocks every stored neighbor unconditionally.  Starting from a
state whose first (u, x) row has score 4 and is not completed, the cascade
agrees with bumping the score and running the manual CompleteNode exactly when
every row of the user whose node is a stored neighbor of x lists x among its
own neighbors (as symmetric adjacency guarantees); the counterexample shows
the two paths diverge on an asymmetric state. -/
theorem C3_cascade_matches_complete_under_symmetry (st : List UserNode) (u x : String)
    (r0 : UserNode) (tl : List UserNode)
    (hsel : sqlSelect st (keyb u x) = r0 :: tl)
    (hscore : r0.curiosity_score = 4) (hnc : r0.is_completed = false)
    (hsym : ∀ r ∈ st, r.user_id = u → r.node_id ∈ r0.neighbors → x ∈ r.neighbors) :
    process_curiosity_score st u x true =
      (complete_node (sqlUpdate st (keyb u x)
        (fun r => { r with curiosity_score := r.curiosity_score + 1 })) u x).1 := by
  have hk0 : keyb u x r0 = true := by
    have hmem : r0 ∈ sqlSelect st (keyb u x) := by
      rw [hsel]; exact List.mem_cons_self _ _
    exact (List.mem_filter.mp hmem).2
  have hr0st : r0 ∈ st := by
    have hmem : r0 ∈ sqlSelect st (keyb u x) := by
      rw [hsel]; exact List.mem_cons_self _ _
    exact (List.mem_filter.mp hmem).1
  have hk0b : keyb u x ({ r0 with curiosity_score := r0.curiosity_score + 1 } : UserNode)
      = true := hk0
  have hkeybB : ∀ r : UserNode, keyb u x (if keyb u x r then
      ({ r with curiosity_score := r.curiosity_score + 1 } : UserNode) else r) = keyb u x r := by
    intro r
    by_cases h0 : keyb u x r = true
    · rw [if_pos h0]; rfl
    · rw [if_neg h0]
  have hkeybC : ∀ r : UserNode, keyb u x (if keyb u x r then
      ({ r with is_completed := true } : UserNode) else r) = keyb u x r := by
    intro r
    by_cases h0 : keyb u x r = true
    · rw [if_pos h0]; rfl
    · rw [if_neg h0]
  have hself1 : sqlSelect (sqlUpdate st (keyb u x)
      (fun r => { r with curiosity_score := r.curiosity_score + 1 })) (keyb u x)
      = (if keyb u x r0 then
          ({ r0 with curiosity_score := r0.curiosity_score + 1 } : UserNode) else r0) ::
        tl.map (fun r => if keyb u x r then
          ({ r with curiosity_score := r.curiosity_score + 1 } : UserNode) else r) := by
    show (st.map fun r => if keyb u x r then
      ({ r with curiosity_score := r.curiosity_score + 1 } : UserNode) else r).filter
        (keyb u x) = _
    rw [filter_map_general _ (keyb u x) (keyb u x) hkeybB,
      show st.filter (keyb u x) = r0 :: tl from hsel, List.map_cons]
  have hs1scores : (sqlSelect (sqlUpdate st (keyb u x)
      (fun r => { r with curiosity_score := r.curiosity_score + 1 })) (keyb u x)).map
        (·.curiosity_score)
      = (r0.curiosity_score + 1) ::
        (tl.map (fun r => if keyb u x r then
          ({ r with curiosity_score := r.curiosity_score + 1 } : UserNode) else r)).map
          (·.curiosity_score) := by
    rw [hself1, List.map_cons, if_pos hk0]
  have hself2 : sqlSelect (sqlUpdate (sqlUpdate st (keyb u x)
      (fun r => { r with curiosity_score := r.curiosity_score + 1 })) (keyb u x)
      (fun r => { r with is_completed := true })) (keyb u x)
      = (if keyb u x (if keyb u x r0 then
            ({ r0 with curiosity_score := r0.curiosity_score + 1 } : UserNode) else r0) then
          ({ (if keyb u x r0 then
            ({ r0 with curiosity_score := r0.curiosity_score + 1 } : UserNode) else r0) with
              is_completed := true } : UserNode)
         else (if keyb u x r0 then
            ({ r0 with curiosity_score := r0.curiosity_score + 1 } : UserNode) else r0)) ::
        (tl.map (fun r => if keyb u x r then
          ({ r with curiosity_score := r.curiosity_score + 1 } : UserNode) else r)).map
          (fun r => if keyb u x r then
            ({ r with is_completed := true } : UserNode) else r) := by
    show ((sqlUpdate st (keyb u x)
      (fun r => { r with curiosity_score := r.curiosity_score + 1 })).map
        fun r => if keyb u x r then
          ({ r with is_completed := true } : UserNode) else r).filter (keyb u x) = _
    rw [filter_map_general _ (keyb u x) (keyb u x) hkeybC,
      show (sqlUpdate st (keyb u x)
        (fun r => { r with curiosity_score := r.curiosity_score + 1 })).filter (keyb u x)
        = _ from hself1, List.map_cons]
  have hs2nb : (sqlSelect (sqlUpdate (sqlUpdate st (keyb u x)
      (fun r => { r with curiosity_score := r.curiosity_score + 1 })) (keyb u x)
      (fun r => { r with is_completed := true })) (keyb u x)).map (·.neighbors)
      = r0.neighbors ::
        ((tl.map (fun r => if keyb u x r then
          ({ r with curiosity_score := r.curiosity_score + 1 } : UserNode) else r)).map
          (fun r => if keyb u x r then
            ({ r with is_completed := true } : UserNode) else r)).map (·.neighbors) := by
    rw [hself2, List.map_cons, if_pos hk0, if_pos hk0b]
  have hx2 : ∃ rx ∈ (sqlUpdate (sqlUpdate st (keyb u x)
      (fun r => { r with curiosity_score := r.curiosity_score + 1 })) (keyb u x)
      (fun r => { r with is_completed := true })),
      keyb u x rx = true ∧ rx.is_completed = true := by
    refine ⟨{ r0 with curiosity_score := r0.curiosity_score + 1, is_completed := true },
      ?_, hk0, rfl⟩
    have himg : (fun r => if keyb u x r then ({ r with is_completed := true } : UserNode) else r)
        ((fun r => if keyb u x r then
          ({ r with curiosity_score := r.curiosity_score + 1 } : UserNode) else r) r0)
        = { r0 with curiosity_score := r0.curiosity_score + 1, is_completed := true } := by
      dsimp only
      rw [if_pos hk0, if_pos hk0b]
    exact himg ▸ List.mem_map_of_mem _ (List.mem_map_of_mem _ hr0st)
  have hsym2 : ∀ r ∈ (sqlUpdate (sqlUpdate st (keyb u x)
      (fun r => { r with curiosity_score := r.curiosity_score + 1 })) (keyb u x)
      (fun r => { r with is_completed := true })),
      r.user_id = u → r.node_id ∈ r0.neighbors → x ∈ r.neighbors := by
    intro r hr hru hrn
    simp only [sqlUpdate, List.map_map, List.mem_map] at hr
    obtain ⟨a, ha, rfl⟩ := hr
    simp only [Function.comp_apply] at hru hrn ⊢
    by_cases hk : keyb u x a = true
    · have hkb : keyb u x ({ a with curiosity_score := a.curiosity_score + 1 } : UserNode)
          = true := hk
      rw [if_pos hk, if_pos hkb] at hru hrn ⊢
      exact hsym a ha hru hrn
    · rw [if_neg hk, if_neg hk] at hru hrn ⊢
      exact hsym a ha hru hrn
  simp only [process_curiosity_score, complete_node, Bool.not_true]
  rw [if_neg (by simp)]
  rw [hsel]
  dsimp only
  rw [if_pos (by rw [hscore, hnc]; decide)]
  rw [hs1scores]
  dsimp only
  rw [if_pos (by rw [hscore]; decide)]
  rw [hs2nb]
  dsimp only
  cases hnb : r0.neighbors with
  | nil =>
    simp
  | cons n ns =>
    rw [if_neg (by simp)]
    rw [hnb] at hsym2
    exact (foldl_unlock_eq_bulk u x (n :: ns) _ hx2 hsym2).symm

end Valence

namespace Valence

/-- C3 counterexample: an asymmetric stored state — x lists n as neighbor but
n has an empty neighbor list.  The score-triggered cascade unlocks n
unconditionally, while a manual CompleteNode from the same starting state
evaluates the predicate over n's empty neighbor set and leaves n locked: the
two paths do not produce the same final stored state. -/
theorem C3_asymmetric_state_counterexample :
    ((process_curiosity_score [⟨"u", "x", ["n"], false, 4, true, []⟩,
        ⟨"u", "n", [], false, 0, false, []⟩] "u" "x" true).map (·.is_unlocked))
      = [true, true] ∧
    (((complete_node [⟨"u", "x", ["n"], false, 4, true, []⟩,
        ⟨"u", "n", [], false, 0, false, []⟩] "u" "x").1).map (·.is_unlocked))
      = [true, false] :=
  ⟨rfl, rfl⟩

/-- C3 witness: on a symmetric two-node state with the node at score 4, the
cascade and the bump-then-manual-completion produce identical stored states. -/
theorem C3_cascade_matches_complete_under_symmetry_witness :
    process_curiosity_score [⟨"u", "x", ["n"], false, 4, true, []⟩,
        ⟨"u", "n", ["x"], false, 0, false, []⟩] "u" "x" true =
      (complete_node (sqlUpdate [⟨"u", "x", ["n"], false, 4, true, []⟩,
          ⟨"u", "n", ["x"], false, 0, false, []⟩] (keyb "u" "x")
        (fun r => { r with curiosity_score := r.curiosity_score + 1 })) "u" "x").1 :=
  C3_cascade_matches_complete_under_symmetry _ "u" "x"
    ⟨"u", "x", ["n"], false, 4, true, []⟩ [] rfl rfl rfl (by decide)

/-- C10: the Chat response's curiosity_increased field equals the judge
verdict, computed without reading the store; when the stored node is already
completed (or its score is at least 5) the deferred scoring task applies no
change — the final store is exactly the history-saved store — yet the
response still reports the verdict. -/
theorem C10_response_reports_verdict (st : List UserNode) (u node_id : String)
    (messages : List Msg) (assistant : String) (entries : List (String × Json))
    (b : Bool) (m : Msg) (r0 : UserNode) (tl : List UserNode)
    (hmsg : (messages.filter fun mm => mm.role == "user").getLast? = some m)
    (hget : dictGet entries "is_curious" (.bool false) = .bool b)
    (hsel : sqlSelect st (keyb u node_id) = r0 :: tl)
    (hblocked : r0.is_completed = true ∨ ¬ r0.curiosity_score < 5) :
    (chat st u messages node_id (.ok assistant) (.output (some (.obj entries)))).1 =
      .ok { message := assistant, curiosity_increased := .bool b,
            curiosity_reason := if b then jsonGet0 (.obj entries) "reason" else .null } ∧
    (chat st u messages node_id (.ok assistant) (.output (some (.obj entries)))).2 =
      save_chat_history_background st u node_id
        (lastN 10 (messages ++ [⟨"assistant", assistant⟩])) := by
  have hprocess : process_curiosity_score
      (save_chat_history_background st u node_id
        (lastN 10 (messages ++ [⟨"assistant", assistant⟩]))) u node_id b
      = save_chat_history_background st u node_id
        (lastN 10 (messages ++ [⟨"assistant", assistant⟩])) := by
    cases b with
    | false => rfl
    | true =>
      have hk0 : keyb u node_id r0 = true := by
        have hmem : r0 ∈ sqlSelect st (keyb u node_id) := by
          rw [hsel]; exact List.mem_cons_self _ _
        exact (List.mem_filter.mp hmem).2
      have hkeybH : ∀ r : UserNode, keyb u node_id (if keyb u node_id r then
          ({ r with chat_history := lastN 10 (messages ++ [⟨"assistant", assistant⟩]) } : UserNode)
            else r) = keyb u node_id r := by
        intro r
        by_cases h0 : keyb u node_id r = true
        · rw [if_pos h0]; rfl
        · rw [if_neg h0]
      have hselH : sqlSelect (save_chat_history_background st u node_id
          (lastN 10 (messages ++ [⟨"assistant", assistant⟩]))) (keyb u node_id)
          = (if keyb u node_id r0 then
              ({ r0 with
                  chat_history := lastN 10 (messages ++ [⟨"assistant", assistant⟩]) } : UserNode)
              else r0) ::
            tl.map (fun r => if keyb u node_id r then
              ({ r with
                  chat_history := lastN 10 (messages ++ [⟨"assistant", assistant⟩]) } : UserNode)
              else r) := by
        show (st.map fun r => if keyb u node_id r then
          ({ r with
              chat_history := lastN 10 (messages ++ [⟨"assistant", assistant⟩]) } : UserNode)
          else r).filter (keyb u node_id) = _
        rw [filter_map_general _ (keyb u node_id) (keyb u node_id) hkeybH,
          show st.filter (keyb u node_id) = r0 :: tl from hsel, List.map_cons]
      simp only [process_curiosity_score, Bool.not_true]
      rw [if_neg (by simp)]
      rw [hselH]
      dsimp only
      rw [if_pos hk0]
      rw [if_neg ?hg]
      case hg =>
        rcases hblocked with hc | hs
        · simp [hc]
        · simp [hs]
  have hchat : chat st u messages node_id (.ok assistant) (.output (some (.obj entries)))
      = (.ok { message := assistant, curiosity_increased := .bool b,
               curiosity_reason := if b then jsonGet0 (.obj entries) "reason" else .null },
         process_curiosity_score (save_chat_history_background st u node_id
           (lastN 10 (messages ++ [⟨"assistant", assistant⟩]))) u node_id b) := by
    simp only [chat]
    rw [hmsg]
    dsimp only
    rw [show jsonGet (evaluate_curiosity (JudgeOutcome.output (some (.obj entries))))
        "is_curious" (.bool false) = Except.ok (Json.bool b) from by
      show Except.ok (dictGet entries "is_curious" (.bool false)) = Except.ok (Json.bool b)
      rw [hget]]
    rfl
  refine ⟨?_, ?_⟩
  · rw [hchat]
  · rw [hchat]
    exact hprocess

/-- C10 witness: a node already completed at score 5 with a curious verdict —
the response reports curiosity_increased true while the scoring task leaves
the store untouched beyond the history save. -/
theorem C10_response_reports_verdict_witness :
    (chat [⟨"u", "x", [], true, 5, true, []⟩] "u" [⟨"user", "q"⟩] "x" (.ok "a")
        (.output (some (.obj [("is_curious", Json.bool true),
          ("reason", Json.str "nice")])))).1 =
      .ok { message := "a", curiosity_increased := .bool true,
            curiosity_reason := if true then jsonGet0
              (.obj [("is_curious", Json.bool true), ("reason", Json.str "nice")]) "reason"
              else .null } ∧
    (chat [⟨"u", "x", [], true, 5, true, []⟩] "u" [⟨"user", "q"⟩] "x" (.ok "a")
        (.output (some (.obj [("is_curious", Json.bool true),
          ("reason", Json.str "nice")])))).2 =
      save_chat_history_background [⟨"u", "x", [], true, 5, true, []⟩] "u" "x"
        (lastN 10 ([⟨"user", "q"⟩] ++ [⟨"assistant", "a"⟩])) :=
  C10_response_reports_verdict _ "u" "x" _ "a" _ true ⟨"user", "q"⟩
    ⟨"u", "x", [], true, 5, true, []⟩ [] rfl rfl rfl (Or.inl rfl)

end Valence
